import Mathlib

/-!
Verification of the content provisioning and synchronization engine of the
docs-mcp repository (files `scripts/build.js` and `src/index.js`), as a
shallow embedding: external effects (git, network, filesystem) are oracles
supplied by environment records, and each provisioning routine is a pure
function returning its outcome together with the ordered trace of effectful
steps it performs.
-/

namespace DocsMcp

/-- The configuration fields the engine consumes (`loadConfig` output as used
by `scripts/build.js` and `src/index.js`).  `gitUrl = none` models an
absent/null `gitUrl`; likewise for `includeDir`. -/
structure Config where
  dataDir : String
  gitUrl : Option String
  gitRef : String
  autoUpdateInterval : Nat
  includeDir : Option String
  toolName : String
  deriving Repr, DecidableEq

/-- One observable effectful step of the engine, in the order performed. -/
inductive Ev where
  | ensureDir
  | emptyDir
  | tryDownload (url : String)
  | extractDone
  | tryClone
  | cloneDone
  | copyFile (p : String)
  | checkRepo
  | fetchStep
  | statusStep (behind : Nat)
  | logBehind (behind : Nat)
  | pullStep
  | pullDone
  | errLogged
  | armTimer
  | clearTimer
  | connect
  deriving Repr, DecidableEq

/-- Steps that write into the target directory (clone, archive download and
extraction, static file copy, git pull). -/
def Ev.isWrite : Ev → Bool
  | .tryDownload _ => true
  | .tryClone => true
  | .copyFile _ => true
  | .pullStep => true
  | _ => false

/-- No write step occurs before the first `emptyDir` of the trace (vacuously
true when the trace has no write at all before its end). -/
def noWriteBeforeEmpty : List Ev → Bool
  | [] => true
  | e :: tr =>
      if e = .emptyDir then true
      else if e.isWrite then false
      else noWriteBeforeEmpty tr

/-! ### GitHub URL parsing (`build.js` line 112)

`config.gitUrl.match(/github\.com\/([^/]+)\/([^/]+?)(\.git)?$/)`: the leftmost
occurrence of `github.com/` after which the rest of the string is
`owner/repo` with `owner` and `repo` nonempty and slash-free; the lazy
`([^/]+?)(\.git)?$` strips one trailing `.git` when the part after it would
stay nonempty. -/

/-- The literal part of the pattern: `github.com/`. -/
def ghPat : List Char := "github.com/".toList

/-- Whether the list ends with the four characters `.git`. -/
def endsWithGit (l : List Char) : Bool :=
  l.drop (l.length - 4) = [ '.', 'g', 'i', 't' ]

/-- The group `([^/]+?)(\.git)?$` applied to a nonempty slash-free tail: the
lazy quantifier drops one trailing `.git` whenever what is left stays
nonempty. -/
def lazyRepoName (l : List Char) : List Char :=
  if 4 < l.length && endsWithGit l then l.take (l.length - 4) else l

/-- Match `([^/]+)\/([^/]+?)(\.git)?$` against the remainder after
`github.com/`. -/
def matchOwnerRepo (rem : List Char) : Option (List Char × List Char) :=
  let owner := rem.takeWhile (fun c => c != '/')
  match rem.drop owner.length with
  | '/' :: repoPart =>
      if owner.isEmpty || repoPart.isEmpty || repoPart.contains '/' then none
      else some (owner, lazyRepoName repoPart)
  | _ => none

/-- Scan for the leftmost position where the whole pattern matches. -/
def findGithub : List Char → Option (List Char × List Char)
  | [] => none
  | c :: rest =>
      if ghPat.isPrefixOf (c :: rest) then
        match matchOwnerRepo ((c :: rest).drop ghPat.length) with
        | some pr => some pr
        | none => findGithub rest
      else findGithub rest

/-- `gitUrl.match(/github\.com\/([^/]+)\/([^/]+?)(\.git)?$/)` as the optional
`(owner, repo)` capture pair. -/
def parseGithubUrl (url : String) : Option (String × String) :=
  (findGithub url.toList).map fun pr => (String.mk pr.1, String.mk pr.2)

/-- `https://github.com/${owner}/${repo}/archive/${ref}.tar.gz`
(`build.js` line 123). -/
def tarballUrl (owner repo ref : String) : String :=
  "https://github.com/" ++ owner ++ "/" ++ repo ++ "/archive/" ++ ref ++ ".tar.gz"

/-- `config.gitRef || 'main'` (`build.js` line 122): JS falsiness of the
empty string models an unset ref. -/
def refOrMain (gitRef : String) : String :=
  if gitRef = "" then "main" else gitRef

/-! ### Tarball extraction with `strip: 1` (`build.js` lines 138-141)

An archive is a list of entries, each a path (list of components) with file
content.  `tar.x({strip: 1})` removes the first component of every entry and
skips entries whose whole path is consumed. -/

/-- `tar.x` with `strip: 1`: drop one leading path component from each entry,
skipping entries with nothing left. -/
def extractStrip1 (entries : List (List String × String)) :
    List (List String × String) :=
  entries.filterMap fun e =>
    match e.1 with
    | _ :: p :: ps => some (p :: ps, e.2)
    | _ => none

/-! ### Files enumerated for the static copy (`build.js` lines 77-97) -/

/-- An entry of the source tree as the glob enumeration sees it. -/
structure SrcEntry where
  path : String
  content : String
  isDir : Bool
  deriving Repr, DecidableEq

/-- One `fs.copy` into the target tree: the target is an association list
from relative path to byte content, and a copy overwrites any entry at the
same path. -/
def copyFileInto (t : List (String × String)) (p c : String) :
    List (String × String) :=
  t.filter (fun kv => kv.1 != p) ++ [(p, c)]

/-- `copyIncludedDir` at the level of directory contents: the glob call
(`nodir: true`, `ignore: ignorePatterns`, `gitignore: true`) keeps the
non-directory entries excluded neither by an `ignorePatterns` glob
(`ignoreGlob`) nor by a nested git-ignore rule (`gitIgnored`); each surviving
file is then copied to the identical relative path.  The two exclusion
predicates are the external glob library's matching, taken abstractly. -/
def copyIncludedDir (files : List SrcEntry)
    (ignoreGlob gitIgnored : String → Bool) : List (String × String) :=
  (files.filter fun e => !e.isDir && !ignoreGlob e.path && !gitIgnored e.path).foldl
    (fun t e => copyFileInto t e.path e.content) []

/-- Reading one path of the produced target tree (association-list read). -/
def lookupFile : List (String × String) → String → Option String
  | [], _ => none
  | kv :: t, p => if kv.1 = p then some kv.2 else lookupFile t p

/-! ### Build-mode provisioning (`scripts/build.js`) -/

/-- Outcomes of the external operations the build may perform.
`staticEnum` is the result of the glob enumeration of `includeDir`: per the
StaticCopier contract it raises when the source directory is missing or
unreadable, and returns the (possibly empty) filtered file list otherwise. -/
structure BuildEnv where
  downloadOk : Bool
  cloneOk : Bool
  staticEnum : Except String (List SrcEntry)

/-- `cloneGitRepo` (`build.js` lines 55-67): a depth-1 single-branch clone;
on failure the error is re-thrown.  Returns (success?, trace). -/
def cloneGitRepo (env : BuildEnv) : Bool × List Ev :=
  if env.cloneOk then (true, [.tryClone, .cloneDone]) else (false, [.tryClone])

/-- `downloadAndExtractTarball` (`build.js` lines 110-159): parse the URL;
if it does not match, fall back to `cloneGitRepo`; otherwise download and
extract, and on any download/extraction error fall back to `cloneGitRepo`,
re-throwing only the fallback's own failure. -/
def downloadAndExtractTarball (gitRef : String) (env : BuildEnv) (u : String) :
    Bool × List Ev :=
  match parseGithubUrl u with
  | none => cloneGitRepo env
  | some (o, r) =>
      let url := tarballUrl o r (refOrMain gitRef)
      if env.downloadOk then (true, [.tryDownload url, .extractDone])
      else
        let c := cloneGitRepo env
        (c.1, .tryDownload url :: c.2)

/-- `copyIncludedDir` (`build.js` lines 72-104) at trace level: enumeration
errors are logged and re-thrown; a successful enumeration copies each listed
file (an empty list copies nothing and succeeds). -/
def copyIncludedTrace (env : BuildEnv) : Bool × List Ev :=
  match env.staticEnum with
  | .error _ => (false, [])
  | .ok files => (true, files.map fun e => .copyFile e.path)

/-- `prepareDataDir` (`build.js` lines 25-50): unconditionally ensure the
data directory exists and empty it, then run exactly one strategy selected
from the configuration. -/
def prepareDataDir (cfg : Config) (env : BuildEnv) : Bool × List Ev :=
  let strat : Bool × List Ev :=
    match cfg.gitUrl with
    | some u =>
        if 0 < cfg.autoUpdateInterval then cloneGitRepo env
        else downloadAndExtractTarball cfg.gitRef env u
    | none =>
        match cfg.includeDir with
        | some _ => copyIncludedTrace env
        | none => (true, [])
  (strat.1, .ensureDir :: .emptyDir :: strat.2)

/-- Final state of the build process. -/
inductive BuildOutcome where
  | ok
  | exit1
  deriving Repr, DecidableEq

/-- `build` (`build.js` lines 188-203): any error escaping `prepareDataDir`
is caught and the process exits with code 1. -/
def build (cfg : Config) (env : BuildEnv) : BuildOutcome × List Ev :=
  let p := prepareDataDir cfg env
  (if p.1 then .ok else .exit1, p.2)

/-! ### Runtime synchronization (`src/index.js`, `checkForUpdates`) -/

/-- Outcomes of the git operations one update cycle performs:
`isRepo` is `git.checkIsRepo()`, `fetchErr` a rejection of
`git.fetch()`/`git.status()`, `behind` is `status.behind`, and `pullErr` a
rejection of `git.pull('origin', config.gitRef)`. -/
structure SyncEnv where
  isRepo : Bool
  fetchErr : Bool
  behind : Nat
  pullErr : Bool
  deriving Repr, DecidableEq

/-- The `try` block of `checkForUpdates` (`src/index.js` lines 212-232):
returns its trace and whether it raised. -/
def syncBody (env : SyncEnv) : List Ev × Bool :=
  if !env.isRepo then ([.checkRepo], false)
  else if env.fetchErr then ([.checkRepo, .fetchStep], true)
  else if 0 < env.behind then
    if env.pullErr then
      ([.checkRepo, .fetchStep, .statusStep env.behind, .logBehind env.behind,
        .pullStep], true)
    else
      ([.checkRepo, .fetchStep, .statusStep env.behind, .logBehind env.behind,
        .pullStep, .pullDone], false)
  else ([.checkRepo, .fetchStep, .statusStep env.behind], false)

/-- `checkForUpdates` (`src/index.js` lines 208-241): a no-op without a
`gitUrl`; otherwise the body's raise is caught and logged, and the `finally`
block re-arms the timer whenever `autoUpdateInterval > 0`.  The second
component is whether an exception escapes to the caller: the catch makes it
`false` on every path. -/
def checkForUpdates (cfg : Config) (env : SyncEnv) : List Ev × Bool :=
  if cfg.gitUrl.isNone then ([], false)
  else
    let b := syncBody env
    (b.1 ++ (if b.2 then [.errLogged] else [])
        ++ (if 0 < cfg.autoUpdateInterval then [.armTimer] else []), false)

/-! ### Runtime provisioning (`src/index.js`, `DocsMcpServer.run`) -/

/-- Oracles for the runtime startup pass: `sync` feeds both the startup
`checkIsRepo` probe and the initial update cycle; `dirNonempty` is the
`fs.readdir` emptiness probe before the initial clone. -/
structure RunEnv where
  sync : SyncEnv
  dirNonempty : Bool
  cloneOk : Bool
  downloadOk : Bool

/-- Modelled from the spec: `downloadAndExtractTarballRuntime` is invoked at
`src/index.js` line 289 but its definition is not among the repository's
source files.  Per the spec (ProvisioningEngine, runtime with
`refreshIntervalMinutes = 0`) it behaves as the build-time archive fetcher —
attempt the archive download, fall back to the shallow clone on a parse,
network, HTTP-status or extraction failure, re-raise only the fallback's own
failure — with the target directory reset before the tarball extraction. -/
def downloadAndExtractTarballRuntime (cfg : Config) (env : RunEnv) (u : String) :
    Bool × List Ev :=
  let d := downloadAndExtractTarball cfg.gitRef ⟨env.downloadOk, env.cloneOk, .ok []⟩ u
  (d.1, .emptyDir :: d.2)

/-- Final state of the runtime startup pass. -/
inductive RunOutcome where
  | serving
  | exit1
  deriving Repr, DecidableEq

/-- `DocsMcpServer.run` (`src/index.js` lines 244-320), content-source
initialization: the data directory is ensured at module load (line 47); with
a `gitUrl` and a positive interval, a directory that is not a valid clone is
emptied when nonempty and cloned (exiting on clone failure, with no update
check or timer afterwards), while a valid clone gets an immediate
`checkForUpdates` cycle; with a `gitUrl` and interval 0, the runtime tarball
path runs and its failure exits the process; otherwise the timer is cleared.
On success the server connects its transport. -/
def run (cfg : Config) (env : RunEnv) : RunOutcome × List Ev :=
  match cfg.gitUrl with
  | some u =>
      if 0 < cfg.autoUpdateInterval then
        if !env.sync.isRepo then
          let purge : List Ev := if env.dirNonempty then [.emptyDir] else []
          if env.cloneOk then
            (.serving, .ensureDir :: purge ++ [.tryClone, .cloneDone, .connect])
          else (.exit1, .ensureDir :: purge ++ [.tryClone])
        else
          (.serving, .ensureDir :: (checkForUpdates cfg env.sync).1 ++ [.connect])
      else
        let d := downloadAndExtractTarballRuntime cfg env u
        if d.1 then (.serving, .ensureDir :: d.2 ++ [.clearTimer, .connect])
        else (.exit1, .ensureDir :: d.2)
  | none => (.serving, [.ensureDir, .clearTimer, .connect])

/-! ### The tool-call request handler (`src/index.js`, `setupToolHandlers`
and `executeDocsSearch`) -/

/-- The options object passed to the search collaborator
(`src/index.js` lines 183-188). -/
structure SearchOptions where
  path : String
  query : String
  maxTokens : Nat
  deriving Repr, DecidableEq

/-- The arguments of one incoming tool call: the tool name, the `query`
argument (the empty string models a missing/falsy query) and the optional
`page` argument. -/
structure ToolRequest where
  name : String
  query : String
  page : Option Nat
  deriving Repr, DecidableEq

/-- What one request handler invocation produces: a successful text result, a
tool-level error result (`isError: true` content), or an `McpError` thrown to
the protocol framework (unknown tool name). -/
inductive HandlerOutcome where
  | success (text : String)
  | toolError (text : String)
  | protoError (text : String)
  deriving Repr, DecidableEq

/-- `executeDocsSearch` (`src/index.js` lines 177-202): call the search
collaborator `f` with `{path: config.dataDir, query, maxTokens: 10000}`;
a collaborator failure is wrapped in an `McpError` and re-thrown. -/
def executeDocsSearch (cfg : Config) (f : SearchOptions → Except String String)
    (q : String) : Except String String :=
  match f { path := cfg.dataDir, query := q, maxTokens := 10000 } with
  | .ok r => .ok r
  | .error e => .error ("Error executing docs search: " ++ e)

/-- The `CallToolRequestSchema` handler (`src/index.js` lines 120-168): an
unknown tool name throws an `McpError` before the `try`; a missing query or
any error from `executeDocsSearch` is caught and returned as an
`isError: true` tool result. -/
def handleCallTool (cfg : Config) (f : SearchOptions → Except String String)
    (req : ToolRequest) : HandlerOutcome :=
  if req.name ≠ cfg.toolName then
    .protoError ("Unknown tool: " ++ req.name ++ ". Expected: " ++ cfg.toolName)
  else if req.query = "" then
    .toolError ("Error executing " ++ req.name ++ ": Query is required in arguments")
  else
    match executeDocsSearch cfg f req.query with
    | .ok r => .success r
    | .error e => .toolError ("Error executing " ++ req.name ++ ": " ++ e)

/-- Requests are handled independently, one at a time: serving a sequence of
requests is handling each in order. -/
def serveAll (cfg : Config) (f : SearchOptions → Except String String)
    (reqs : List ToolRequest) : List HandlerOutcome :=
  reqs.map (handleCallTool cfg f)

/-! ## Theorems -/

/-- The archive fetcher fails (its error propagating to the caller) exactly
when the clone fallback was needed and itself failed. -/
lemma downloadAndExtractTarball_fail_iff (gitRef : String) (env : BuildEnv)
    (u : String) :
    (downloadAndExtractTarball gitRef env u).1 = false ↔
      (parseGithubUrl u = none ∨ env.downloadOk = false) ∧ env.cloneOk = false := by
  cases hp : parseGithubUrl u with
  | none =>
      cases hc : env.cloneOk <;>
        simp [downloadAndExtractTarball, cloneGitRepo, hp, hc]
  | some pr =>
      obtain ⟨o, r⟩ := pr
      cases hd : env.downloadOk <;> cases hc : env.cloneOk <;>
        simp [downloadAndExtractTarball, cloneGitRepo, hp, hd, hc]

/-- The clone path is tried exactly when the URL is unparseable or the
download/extraction failed. -/
lemma downloadAndExtractTarball_clone_iff (gitRef : String) (env : BuildEnv)
    (u : String) :
    Ev.tryClone ∈ (downloadAndExtractTarball gitRef env u).2 ↔
      (parseGithubUrl u = none ∨ env.downloadOk = false) := by
  cases hp : parseGithubUrl u with
  | none =>
      cases hc : env.cloneOk <;>
        simp [downloadAndExtractTarball, cloneGitRepo, hp, hc]
  | some pr =>
      obtain ⟨o, r⟩ := pr
      cases hd : env.downloadOk <;> cases hc : env.cloneOk <;>
        simp [downloadAndExtractTarball, cloneGitRepo, hp, hd, hc]

/-- On a parseable URL the archive fetcher's very first step is the archive
download at the derived tarball URL. -/
lemma downloadAndExtractTarball_head (gitRef : String) (env : BuildEnv)
    (u o r : String) (h : parseGithubUrl u = some (o, r)) :
    ∃ tr, (downloadAndExtractTarball gitRef env u).2 =
      .tryDownload (tarballUrl o r (refOrMain gitRef)) :: tr := by
  cases hd : env.downloadOk <;> cases hc : env.cloneOk <;>
    simp [downloadAndExtractTarball, cloneGitRepo, h, hd, hc]

/-- C1: with `sourceKind = repository` and a zero refresh interval,
provisioning in build mode and in runtime mode first attempts the archive
download (the derived tarball URL is the first step whenever the URL
parses), tries the shallow clone exactly when the URL is unparseable or the
download/extraction failed, and exits the process exactly when that clone
fallback was needed and also failed. -/
theorem archive_first_clone_fallback_fatal_last (cfg : Config) (envB : BuildEnv)
    (envR : RunEnv) (u : String) (hg : cfg.gitUrl = some u)
    (hi : cfg.autoUpdateInterval = 0) :
    ((build cfg envB).1 = .exit1 ↔
      (parseGithubUrl u = none ∨ envB.downloadOk = false) ∧ envB.cloneOk = false)
    ∧ (Ev.tryClone ∈ (build cfg envB).2 ↔
        (parseGithubUrl u = none ∨ envB.downloadOk = false))
    ∧ (∀ o r, parseGithubUrl u = some (o, r) →
        (build cfg envB).2.take 3 =
          [.ensureDir, .emptyDir, .tryDownload (tarballUrl o r (refOrMain cfg.gitRef))])
    ∧ ((run cfg envR).1 = .exit1 ↔
        (parseGithubUrl u = none ∨ envR.downloadOk = false) ∧ envR.cloneOk = false)
    ∧ (Ev.tryClone ∈ (run cfg envR).2 ↔
        (parseGithubUrl u = none ∨ envR.downloadOk = false))
    ∧ (∀ o r, parseGithubUrl u = some (o, r) →
        (run cfg envR).2.take 3 =
          [.ensureDir, .emptyDir, .tryDownload (tarballUrl o r (refOrMain cfg.gitRef))]) := by
  have hbuild : (build cfg envB).1 = (if (downloadAndExtractTarball cfg.gitRef envB u).1
      then BuildOutcome.ok else BuildOutcome.exit1) := by
    simp [build, prepareDataDir, hg, hi]
  have hbtr : (build cfg envB).2 =
      .ensureDir :: .emptyDir :: (downloadAndExtractTarball cfg.gitRef envB u).2 := by
    simp [build, prepareDataDir, hg, hi]
  refine ⟨?_, ?_, ?_, ?_, ?_, ?_⟩
  · rw [hbuild, ← downloadAndExtractTarball_fail_iff cfg.gitRef envB u]
    cases (downloadAndExtractTarball cfg.gitRef envB u).1 <;> simp
  · rw [hbtr, ← downloadAndExtractTarball_clone_iff cfg.gitRef envB u]
    simp
  · intro o r h
    obtain ⟨tr, htr⟩ := downloadAndExtractTarball_head cfg.gitRef envB u o r h
    rw [hbtr, htr]
    rfl
  · cases hd : (downloadAndExtractTarball cfg.gitRef
        ⟨envR.downloadOk, envR.cloneOk, .ok []⟩ u).1 <;>
      simp [run, downloadAndExtractTarballRuntime, hg, hi, hd,
        ← downloadAndExtractTarball_fail_iff cfg.gitRef
          ⟨envR.downloadOk, envR.cloneOk, .ok []⟩ u]
  · have hiff := downloadAndExtractTarball_clone_iff cfg.gitRef
      ⟨envR.downloadOk, envR.cloneOk, .ok []⟩ u
    cases hd : (downloadAndExtractTarball cfg.gitRef
        ⟨envR.downloadOk, envR.cloneOk, .ok []⟩ u).1 <;>
      simp only [run, downloadAndExtractTarballRuntime, hg, hi, hd,
        Nat.lt_irrefl, if_false, if_true, ite_true, ite_false] <;>
      rw [← hiff] <;> simp
  · intro o r h
    obtain ⟨tr, htr⟩ := downloadAndExtractTarball_head cfg.gitRef
      ⟨envR.downloadOk, envR.cloneOk, .ok []⟩ u o r h
    cases hd : (downloadAndExtractTarball cfg.gitRef
        ⟨envR.downloadOk, envR.cloneOk, .ok []⟩ u).1 <;>
      simp [run, downloadAndExtractTarballRuntime, hg, hi, hd, htr]

/-- Association-list read distributes over append. -/
lemma lookupFile_append (l r : List (String × String)) (q : String) :
    lookupFile (l ++ r) q = (lookupFile l q).or (lookupFile r q) := by
  induction l with
  | nil => simp [lookupFile]
  | cons kv l ih => by_cases h : kv.1 = q <;> simp [lookupFile, h, ih]

/-- Filtering out the entries at path `p` does not change a read at `q ≠ p`. -/
lemma lookupFile_filter_ne (t : List (String × String)) (p q : String)
    (h : q ≠ p) :
    lookupFile (t.filter fun kv => kv.1 != p) q = lookupFile t q := by
  induction t with
  | nil => rfl
  | cons kv t ih =>
      have hpq : p ≠ q := fun hh => h hh.symm
      by_cases hk : kv.1 = p
      · have hkq : kv.1 ≠ q := by rw [hk]; exact hpq
        simp [List.filter_cons, hk, lookupFile, hkq, hpq, ih]
      · by_cases hkq : kv.1 = q <;>
          simp [List.filter_cons, hk, lookupFile, hkq, hpq, h, ih]

/-- Filtering out the entries at path `p` makes the read at `p` empty. -/
lemma lookupFile_filter_self (t : List (String × String)) (p : String) :
    lookupFile (t.filter fun kv => kv.1 != p) p = none := by
  induction t with
  | nil => rfl
  | cons kv t ih =>
      by_cases hk : kv.1 = p <;> simp [List.filter_cons, hk, lookupFile, ih]

/-- A copy into the target tree is read back exactly at its own path. -/
lemma lookupFile_copyFileInto (t : List (String × String)) (p c q : String) :
    lookupFile (copyFileInto t p c) q = if q = p then some c else lookupFile t q := by
  by_cases h : q = p
  · subst h
    simp only [copyFileInto]
    rw [lookupFile_append, lookupFile_filter_self]
    simp [lookupFile]
  · simp only [copyFileInto]
    rw [lookupFile_append, lookupFile_filter_ne _ _ _ h]
    have hpq : p ≠ q := fun hh => h hh.symm
    simp [lookupFile, h, hpq]

/-- Folding copies whose paths all differ from `q` leaves the read at `q`
unchanged. -/
lemma lookupFile_foldl_of_not_mem (l : List SrcEntry) (acc : List (String × String))
    (q : String) (h : ∀ e ∈ l, e.path ≠ q) :
    lookupFile (l.foldl (fun t e => copyFileInto t e.path e.content) acc) q =
      lookupFile acc q := by
  induction l generalizing acc with
  | nil => rfl
  | cons e l ih =>
      rw [List.foldl_cons, ih _ fun e' he' => h e' (List.mem_cons_of_mem _ he'),
        lookupFile_copyFileInto,
        if_neg fun hq => h e (List.mem_cons_self _ _) hq.symm]

/-- With pairwise distinct paths, folding the copies makes each entry
readable at its own path with its own content. -/
lemma lookupFile_foldl_of_mem (l : List SrcEntry) (acc : List (String × String))
    (e : SrcEntry) (hnd : (l.map SrcEntry.path).Nodup) (he : e ∈ l) :
    lookupFile (l.foldl (fun t e => copyFileInto t e.path e.content) acc) e.path =
      some e.content := by
  induction l generalizing acc with
  | nil => cases he
  | cons a l ih =>
      rcases List.mem_cons.mp he with rfl | he'
      · have hpaths : ∀ e' ∈ l, e'.path ≠ e.path := by
          intro e' he'' hpe
          exact (List.nodup_cons.mp hnd).1 (hpe ▸ List.mem_map_of_mem SrcEntry.path he'')
        rw [List.foldl_cons, lookupFile_foldl_of_not_mem _ _ _ hpaths,
          lookupFile_copyFileInto, if_pos rfl]
      · rw [List.foldl_cons]
        exact ih (copyFileInto acc a.path a.content) (List.nodup_cons.mp hnd).2 he'

/-- C4: with distinct source paths, the static copy produces exactly the
non-directory entries excluded neither by an `ignorePatterns` glob nor by a
nested git-ignore rule, each at its identical relative path with identical
content; a path excluded by either rule is absent from the target. -/
theorem static_copy_contents (files : List SrcEntry)
    (ignoreGlob gitIgnored : String → Bool)
    (hnd : (files.map SrcEntry.path).Nodup) (p c : String) :
    (lookupFile (copyIncludedDir files ignoreGlob gitIgnored) p = some c ↔
      ∃ e, e ∈ files ∧ e.path = p ∧ e.content = c ∧ e.isDir = false
        ∧ ignoreGlob p = false ∧ gitIgnored p = false)
    ∧ (ignoreGlob p = true ∨ gitIgnored p = true →
        lookupFile (copyIncludedDir files ignoreGlob gitIgnored) p = none) := by
  have hsub : ((files.filter fun e =>
      !e.isDir && !ignoreGlob e.path && !gitIgnored e.path).map SrcEntry.path).Nodup :=
    hnd.sublist ((List.filter_sublist files).map SrcEntry.path)
  constructor
  · constructor
    · intro h
      simp only [copyIncludedDir] at h
      by_cases hex : ∃ e ∈ files.filter fun e =>
          !e.isDir && !ignoreGlob e.path && !gitIgnored e.path, e.path = p
      · obtain ⟨e, heI, hep⟩ := hex
        have hle := lookupFile_foldl_of_mem _ [] e hsub heI
        rw [hep] at hle
        have hc : c = e.content := by
          rw [hle] at h
          exact (Option.some_injective _ h).symm
        obtain ⟨hef, hpred⟩ := List.mem_filter.mp heI
        simp only [Bool.and_eq_true, Bool.not_eq_true'] at hpred
        exact ⟨e, hef, hep, hc.symm, hpred.1.1, hep ▸ hpred.1.2, hep ▸ hpred.2⟩
      · push_neg at hex
        rw [lookupFile_foldl_of_not_mem _ _ _ hex] at h
        cases h
    · rintro ⟨e, hef, hep, hec, hdir, hig, hgi⟩
      have heI : e ∈ files.filter fun e =>
          !e.isDir && !ignoreGlob e.path && !gitIgnored e.path :=
        List.mem_filter.mpr ⟨hef, by simp [hdir, hep, hig, hgi]⟩
      have hle := lookupFile_foldl_of_mem _ [] e hsub heI
      rw [hep, hec] at hle
      simpa only [copyIncludedDir] using hle
  · intro hig
    have hnone : ∀ e ∈ files.filter fun e =>
        !e.isDir && !ignoreGlob e.path && !gitIgnored e.path, e.path ≠ p := by
      intro e he hep
      have hpred := (List.mem_filter.mp he).2
      simp only [Bool.and_eq_true, Bool.not_eq_true'] at hpred
      rcases hig with h | h
      · exact absurd (hep ▸ hpred.1.2) (by simp [h])
      · exact absurd (hep ▸ hpred.2) (by simp [h])
    simp only [copyIncludedDir]
    rw [lookupFile_foldl_of_not_mem _ _ _ hnone]
    rfl

/-- C4 witness: a concrete source with one markdown file, one ignored
temporary file and one directory entry copies exactly the markdown file. -/
theorem static_copy_contents_witness :
    (lookupFile (copyIncludedDir
        [⟨"a.md", "hello", false⟩, ⟨"b.tmp", "x", false⟩, ⟨"sub", "", true⟩]
        (fun p => p == "b.tmp") (fun _ => false)) "a.md" = some "hello" ↔
      ∃ e, e ∈ [(⟨"a.md", "hello", false⟩ : SrcEntry), ⟨"b.tmp", "x", false⟩,
          ⟨"sub", "", true⟩] ∧ e.path = "a.md" ∧ e.content = "hello"
        ∧ e.isDir = false ∧ ("a.md" == "b.tmp") = false ∧ false = false)
    ∧ (("a.md" == "b.tmp") = true ∨ false = true →
        lookupFile (copyIncludedDir
          [⟨"a.md", "hello", false⟩, ⟨"b.tmp", "x", false⟩, ⟨"sub", "", true⟩]
          (fun p => p == "b.tmp") (fun _ => false)) "a.md" = none) :=
  static_copy_contents
    [⟨"a.md", "hello", false⟩, ⟨"b.tmp", "x", false⟩, ⟨"sub", "", true⟩]
    (fun p => p == "b.tmp") (fun _ => false) (by decide) "a.md" "hello"

/-- An update cycle never empties the target directory. -/
lemma emptyDir_not_mem_checkForUpdates (cfg : Config) (env : SyncEnv) :
    Ev.emptyDir ∉ (checkForUpdates cfg env).1 := by
  obtain ⟨ir, fe, bh, pe⟩ := env
  by_cases hn : cfg.gitUrl.isNone
  · simp [checkForUpdates, hn]
  · rcases Nat.eq_zero_or_pos bh with hb | hb
    · subst hb
      cases ir <;> cases fe <;> cases pe <;>
        by_cases hi : 0 < cfg.autoUpdateInterval <;>
          simp [checkForUpdates, syncBody, hn, hi]
    · cases ir <;> cases fe <;> cases pe <;>
        by_cases hi : 0 < cfg.autoUpdateInterval <;>
          simp [checkForUpdates, syncBody, hn, hi, hb, Nat.pos_iff_ne_zero.mp hb]

/-- C3: the build pass ensures and fully empties the target directory before
any strategy step, unconditionally; the runtime pass empties it exactly when
entering the repository strategy with a directory that is not a valid clone
and is non-empty, or on the tarball path (before its extraction); and
whenever a runtime trace empties the directory, no write step precedes the
first `emptyDir`. -/
theorem target_dir_reset_discipline (cfg : Config) (envB : BuildEnv)
    (envR : RunEnv) :
    ((build cfg envB).2.take 2 = [.ensureDir, .emptyDir])
    ∧ noWriteBeforeEmpty (build cfg envB).2 = true
    ∧ (Ev.emptyDir ∈ (run cfg envR).2 ↔
        cfg.gitUrl.isSome = true
          ∧ ((0 < cfg.autoUpdateInterval ∧ envR.sync.isRepo = false
                ∧ envR.dirNonempty = true)
            ∨ cfg.autoUpdateInterval = 0))
    ∧ (Ev.emptyDir ∈ (run cfg envR).2 →
        noWriteBeforeEmpty (run cfg envR).2 = true) := by
  refine ⟨?_, ?_, ?_, ?_⟩
  · simp [build, prepareDataDir]
  · simp [build, prepareDataDir, noWriteBeforeEmpty, Ev.isWrite]
  · cases hg : cfg.gitUrl with
    | none => simp [run, hg]
    | some u =>
        by_cases hi : 0 < cfg.autoUpdateInterval
        · cases hrepo : envR.sync.isRepo
          · cases hne : envR.dirNonempty <;> cases hc : envR.cloneOk <;>
              simp [run, hg, hi, hrepo, hne, hc, Nat.pos_iff_ne_zero.mp hi]
          · have hmem := emptyDir_not_mem_checkForUpdates cfg envR.sync
            simp [run, hg, hi, hrepo, hmem, Nat.pos_iff_ne_zero.mp hi]
        · have hz : cfg.autoUpdateInterval = 0 := Nat.eq_zero_of_not_pos (by omega)
          cases hd : (downloadAndExtractTarball cfg.gitRef
              ⟨envR.downloadOk, envR.cloneOk, .ok []⟩ u).1 <;>
            simp [run, downloadAndExtractTarballRuntime, hg, hz, hd]
  · intro hmem
    cases hg : cfg.gitUrl with
    | none => simp [run, hg, noWriteBeforeEmpty, Ev.isWrite]
    | some u =>
        by_cases hi : 0 < cfg.autoUpdateInterval
        · cases hrepo : envR.sync.isRepo
          · cases hne : envR.dirNonempty
            · cases hc : envR.cloneOk <;>
                simp [run, hg, hi, hrepo, hne, hc] at hmem
            · cases hc : envR.cloneOk <;>
                simp [run, hg, hi, hrepo, hne, hc, noWriteBeforeEmpty, Ev.isWrite]
          · have := emptyDir_not_mem_checkForUpdates cfg envR.sync
            simp [run, hg, hi, hrepo, this] at hmem
        · have hz : cfg.autoUpdateInterval = 0 := Nat.eq_zero_of_not_pos (by omega)
          cases hd : (downloadAndExtractTarball cfg.gitRef
              ⟨envR.downloadOk, envR.cloneOk, .ok []⟩ u).1 <;>
            simp [run, downloadAndExtractTarballRuntime, hg, hz, hd,
              noWriteBeforeEmpty, Ev.isWrite]

/-- C3 witness: a concrete build trace resets first, and a concrete runtime
pass entering the repository strategy on a non-empty non-clone directory
empties it before the clone writes. -/
theorem target_dir_reset_discipline_witness :
    ((build ⟨"data", some "u", "main", 5, none, "t"⟩ ⟨true, true, .ok []⟩).2.take 2 =
        [.ensureDir, .emptyDir])
    ∧ noWriteBeforeEmpty
        (build ⟨"data", some "u", "main", 5, none, "t"⟩ ⟨true, true, .ok []⟩).2 = true
    ∧ (Ev.emptyDir ∈ (run ⟨"data", some "u", "main", 5, none, "t"⟩
          ⟨⟨false, false, 0, false⟩, true, true, true⟩).2 ↔
        (some "u" : Option String).isSome = true
          ∧ ((0 < (5 : Nat) ∧ false = false ∧ true = true) ∨ (5 : Nat) = 0))
    ∧ (Ev.emptyDir ∈ (run ⟨"data", some "u", "main", 5, none, "t"⟩
          ⟨⟨false, false, 0, false⟩, true, true, true⟩).2 →
        noWriteBeforeEmpty (run ⟨"data", some "u", "main", 5, none, "t"⟩
          ⟨⟨false, false, 0, false⟩, true, true, true⟩).2 = true) :=
  target_dir_reset_discipline ⟨"data", some "u", "main", 5, none, "t"⟩
    ⟨true, true, .ok []⟩ ⟨⟨false, false, 0, false⟩, true, true, true⟩

/-- A list is a prefix of itself followed by anything. -/
lemma isPrefixOf_self_append (l t : List Char) : l.isPrefixOf (l ++ t) = true := by
  induction l with
  | nil => simp [List.isPrefixOf]
  | cons a as ih => simp [List.isPrefixOf, ih]

/-- The scan skips any prefix containing no `g` (the pattern's first
character). -/
lemma findGithub_append_no_g (pre suf : List Char) (h : ∀ c ∈ pre, c ≠ 'g') :
    findGithub (pre ++ suf) = findGithub suf := by
  induction pre with
  | nil => rfl
  | cons c pre ih =>
      have hg : ('g' == c) = false :=
        beq_eq_false_iff_ne.mpr fun hh => h c (List.mem_cons_self _ _) hh.symm
      have hc : ghPat.isPrefixOf (c :: (pre ++ suf)) = false := by
        rw [show ghPat = 'g' :: "ithub.com/".toList from rfl]
        simp [List.isPrefixOf, hg]
      rw [List.cons_append]
      simp only [findGithub, hc, Bool.false_eq_true, if_false]
      exact ih fun c' hc' => h c' (List.mem_cons_of_mem _ hc')

/-- Taking characters up to the first slash of `o ++ '/' :: rest` yields `o`
when `o` is slash-free. -/
lemma takeWhile_until_slash (o rest : List Char) (h : '/' ∉ o) :
    (o ++ '/' :: rest).takeWhile (fun c => c != '/') = o := by
  induction o with
  | nil => simp [List.takeWhile]
  | cons c o ih =>
      simp only [List.mem_cons, not_or] at h
      obtain ⟨hc, h2⟩ := h
      have hbne : (c != '/') = true := bne_iff_ne.mpr fun hh => hc hh.symm
      simp [List.takeWhile, hbne, ih h2]

/-- The lazy group keeps a tail that does not end in `.git` whole. -/
lemma lazyRepoName_no_git (l : List Char) (h : endsWithGit l = false) :
    lazyRepoName l = l := by
  simp [lazyRepoName, h]

/-- The lazy group strips one trailing `.git` from a nonempty name. -/
lemma lazyRepoName_strip (l : List Char) (h : l ≠ []) :
    lazyRepoName (l ++ [ '.', 'g', 'i', 't' ]) = l := by
  have hpos : 0 < l.length := List.length_pos.mpr h
  have hlen : (l ++ [ '.', 'g', 'i', 't' ]).length = l.length + 4 := by simp
  have hsub : l.length + 4 - 4 = l.length := by omega
  have h4 : 4 < l.length + 4 := by omega
  have hend : endsWithGit (l ++ [ '.', 'g', 'i', 't' ]) = true := by
    simp only [endsWithGit, hlen, hsub]
    rw [List.drop_left]
    simp
  simp only [lazyRepoName, hlen, hend, hsub, h4, decide_eq_true_eq,
    Bool.and_true, List.take_left, if_pos]

/-- Matching `owner/repo` against a well-formed remainder. -/
lemma matchOwnerRepo_canonical (o rp : List Char) (ho : o ≠ []) (ho2 : '/' ∉ o)
    (hr : rp ≠ []) (hr2 : '/' ∉ rp) :
    matchOwnerRepo (o ++ '/' :: rp) = some (o, lazyRepoName rp) := by
  have htw := takeWhile_until_slash o rp ho2
  have hcont : rp.contains '/' = false := by simpa using hr2
  simp only [matchOwnerRepo, htw]
  rw [List.drop_left]
  simp [List.isEmpty_iff, ho, hr, hcont, hr2]

/-- The scan finds the canonical match right after `https://`. -/
lemma findGithub_canonical (o rp : List Char) (ho : o ≠ []) (ho2 : '/' ∉ o)
    (hr : rp ≠ []) (hr2 : '/' ∉ rp) :
    findGithub ("https://github.com/".toList ++ (o ++ '/' :: rp)) =
      some (o, lazyRepoName rp) := by
  rw [show ("https://github.com/".toList : List Char) = "https://".toList ++ ghPat
      from rfl,
    List.append_assoc, findGithub_append_no_g "https://".toList _ (by decide),
    show ghPat ++ (o ++ '/' :: rp) =
      'g' :: ("ithub.com/".toList ++ (o ++ '/' :: rp)) from rfl]
  have hpre : ghPat.isPrefixOf ('g' :: ("ithub.com/".toList ++ (o ++ '/' :: rp)))
      = true := isPrefixOf_self_append ghPat (o ++ '/' :: rp)
  have hdrop : ('g' :: ("ithub.com/".toList ++ (o ++ '/' :: rp))).drop ghPat.length
      = o ++ '/' :: rp := List.drop_left ghPat (o ++ '/' :: rp)
  simp only [findGithub, hpre, if_true, hdrop,
    matchOwnerRepo_canonical o rp ho ho2 hr hr2]

/-- Parsing the canonical hosted URL `https://github.com/<owner>/<repo>`. -/
lemma parseGithubUrl_https (owner repo : String)
    (ho : owner.toList ≠ []) (ho2 : '/' ∉ owner.toList)
    (hr : repo.toList ≠ []) (hr2 : '/' ∉ repo.toList)
    (hg : endsWithGit repo.toList = false) :
    parseGithubUrl ("https://github.com/" ++ owner ++ "/" ++ repo) =
      some (owner, repo) := by
  obtain ⟨lo⟩ := owner
  obtain ⟨lr⟩ := repo
  have hdata : ("https://github.com/" ++ String.mk lo ++ "/" ++ String.mk lr).toList
      = "https://github.com/".toList ++ (lo ++ '/' :: lr) := by
    show ("https://github.com/" ++ String.mk lo ++ "/" ++ String.mk lr).data
      = "https://github.com/".data ++ (lo ++ '/' :: lr)
    simp [String.data_append, show ("/" : String).data = [ '/' ] from rfl]
  simp only [parseGithubUrl, hdata,
    findGithub_canonical lo lr ho ho2 hr hr2, lazyRepoName_no_git lr hg,
    Option.map_some']

/-- Parsing the canonical hosted URL with a `.git` suffix strips it. -/
lemma parseGithubUrl_https_git (owner repo : String)
    (ho : owner.toList ≠ []) (ho2 : '/' ∉ owner.toList)
    (hr : repo.toList ≠ []) (hr2 : '/' ∉ repo.toList) :
    parseGithubUrl ("https://github.com/" ++ owner ++ "/" ++ repo ++ ".git") =
      some (owner, repo) := by
  obtain ⟨lo⟩ := owner
  obtain ⟨lr⟩ := repo
  have hdata : ("https://github.com/" ++ String.mk lo ++ "/" ++ String.mk lr
        ++ ".git").toList
      = "https://github.com/".toList ++ (lo ++ '/' :: (lr ++ [ '.', 'g', 'i', 't' ])) := by
    show ("https://github.com/" ++ String.mk lo ++ "/" ++ String.mk lr ++ ".git").data
      = "https://github.com/".data ++ (lo ++ '/' :: (lr ++ [ '.', 'g', 'i', 't' ]))
    simp [String.data_append, show ("/" : String).data = [ '/' ] from rfl,
      show (".git" : String).data = [ '.', 'g', 'i', 't' ] from rfl]
  have hr' : lr ++ [ '.', 'g', 'i', 't' ] ≠ [] := by simp
  have hr2' : '/' ∉ lr ++ [ '.', 'g', 'i', 't' ] := by
    intro hmem
    rcases List.mem_append.mp hmem with hmem | hmem
    · exact hr2 hmem
    · exact absurd hmem (by decide)
  simp only [parseGithubUrl, hdata,
    findGithub_canonical lo _ ho ho2 hr' hr2', lazyRepoName_strip lr hr,
    Option.map_some']

/-- Extraction with `strip: 1` removes exactly the shared wrapper component,
keeping every entry underneath it. -/
lemma extractStrip1_of_wrapped (w : String) (entries : List (List String × String))
    (h : ∀ e ∈ entries, ∃ ps, ps ≠ [] ∧ e.1 = w :: ps) :
    extractStrip1 entries = entries.map fun e => (e.1.tail, e.2) := by
  induction entries with
  | nil => rfl
  | cons e rest ih =>
      obtain ⟨ps, hps, he⟩ := h e (List.mem_cons_self _ _)
      have ih' := ih fun e' he' => h e' (List.mem_cons_of_mem _ he')
      cases ps with
      | nil => exact absurd rfl hps
      | cons p ps' =>
          simp only [extractStrip1] at ih'
          simp [extractStrip1, List.filterMap_cons, he, ih']

/-- C5: for hosted repository URLs of the shape
`https://github.com/<owner>/<repo>` and `https://github.com/<owner>/<repo>.git`
(owner and repo nonempty, slash-free, repo not itself ending in `.git`), the
archive fetch derives exactly
`https://github.com/<owner>/<repo>/archive/<ref>.tar.gz` with the ref
defaulting to `main`, attempts that URL first, and the `strip: 1` extraction
removes exactly the one shared wrapper component from every archive entry. -/
theorem tarball_url_derivation_and_strip (owner repo : String)
    (ho : owner.toList ≠ []) (ho2 : '/' ∉ owner.toList)
    (hr : repo.toList ≠ []) (hr2 : '/' ∉ repo.toList)
    (hg : endsWithGit repo.toList = false) :
    parseGithubUrl ("https://github.com/" ++ owner ++ "/" ++ repo) =
      some (owner, repo)
    ∧ parseGithubUrl ("https://github.com/" ++ owner ++ "/" ++ repo ++ ".git") =
        some (owner, repo)
    ∧ refOrMain "" = "main"
    ∧ (∀ (gitRef : String) (env : BuildEnv), env.downloadOk = true →
        (downloadAndExtractTarball gitRef env
            ("https://github.com/" ++ owner ++ "/" ++ repo)).2 =
          [.tryDownload (tarballUrl owner repo (refOrMain gitRef)), .extractDone])
    ∧ (∀ (w : String) (entries : List (List String × String)),
        (∀ e ∈ entries, ∃ ps, ps ≠ [] ∧ e.1 = w :: ps) →
        extractStrip1 entries = entries.map fun e => (e.1.tail, e.2)) := by
  refine ⟨parseGithubUrl_https owner repo ho ho2 hr hr2 hg,
    parseGithubUrl_https_git owner repo ho ho2 hr hr2, rfl, ?_, ?_⟩
  · intro gitRef env hd
    simp [downloadAndExtractTarball,
      parseGithubUrl_https owner repo ho ho2 hr hr2 hg, hd]
  · exact fun w entries h => extractStrip1_of_wrapped w entries h

/-- C5 witness: the concrete owner `acme` and repo `docs` derive the archive
URL `https://github.com/acme/docs/archive/main.tar.gz` from both URL shapes,
and a concrete wrapped archive extracts with its wrapper removed. -/
theorem tarball_url_derivation_and_strip_witness :
    parseGithubUrl ("https://github.com/" ++ "acme" ++ "/" ++ "docs") =
      some ("acme", "docs")
    ∧ parseGithubUrl ("https://github.com/" ++ "acme" ++ "/" ++ "docs" ++ ".git") =
        some ("acme", "docs")
    ∧ refOrMain "" = "main"
    ∧ (∀ (gitRef : String) (env : BuildEnv), env.downloadOk = true →
        (downloadAndExtractTarball gitRef env
            ("https://github.com/" ++ "acme" ++ "/" ++ "docs")).2 =
          [.tryDownload (tarballUrl "acme" "docs" (refOrMain gitRef)), .extractDone])
    ∧ (∀ (w : String) (entries : List (List String × String)),
        (∀ e ∈ entries, ∃ ps, ps ≠ [] ∧ e.1 = w :: ps) →
        extractStrip1 entries = entries.map fun e => (e.1.tail, e.2)) :=
  tarball_url_derivation_and_strip "acme" "docs" (by decide) (by decide)
    (by decide) (by decide) (by decide)

/-- C1 witness: with a parseable GitHub URL, a failing download and a
succeeding clone fallback, build-mode and runtime provisioning both try the
derived archive URL first, fall back to the clone, and do not exit. -/
theorem archive_first_clone_fallback_fatal_last_witness :
    ((build ⟨"data", some "https://github.com/acme/docs", "main", 0, none, "t"⟩
        ⟨false, true, .ok []⟩).1 = .exit1 ↔
      (parseGithubUrl "https://github.com/acme/docs" = none ∨ false = false)
        ∧ true = false)
    ∧ (Ev.tryClone ∈ (build ⟨"data", some "https://github.com/acme/docs", "main", 0,
          none, "t"⟩ ⟨false, true, .ok []⟩).2 ↔
        (parseGithubUrl "https://github.com/acme/docs" = none ∨ false = false))
    ∧ (∀ o r, parseGithubUrl "https://github.com/acme/docs" = some (o, r) →
        (build ⟨"data", some "https://github.com/acme/docs", "main", 0, none, "t"⟩
          ⟨false, true, .ok []⟩).2.take 3 =
          [.ensureDir, .emptyDir, .tryDownload (tarballUrl o r (refOrMain "main"))])
    ∧ ((run ⟨"data", some "https://github.com/acme/docs", "main", 0, none, "t"⟩
          ⟨⟨false, false, 0, false⟩, false, true, false⟩).1 = .exit1 ↔
        (parseGithubUrl "https://github.com/acme/docs" = none ∨ false = false)
          ∧ true = false)
    ∧ (Ev.tryClone ∈ (run ⟨"data", some "https://github.com/acme/docs", "main", 0,
          none, "t"⟩ ⟨⟨false, false, 0, false⟩, false, true, false⟩).2 ↔
        (parseGithubUrl "https://github.com/acme/docs" = none ∨ false = false))
    ∧ (∀ o r, parseGithubUrl "https://github.com/acme/docs" = some (o, r) →
        (run ⟨"data", some "https://github.com/acme/docs", "main", 0, none, "t"⟩
          ⟨⟨false, false, 0, false⟩, false, true, false⟩).2.take 3 =
          [.ensureDir, .emptyDir, .tryDownload (tarballUrl o r (refOrMain "main"))]) :=
  archive_first_clone_fallback_fatal_last
    ⟨"data", some "https://github.com/acme/docs", "main", 0, none, "t"⟩
    ⟨false, true, .ok []⟩ ⟨⟨false, false, 0, false⟩, false, true, false⟩
    "https://github.com/acme/docs" rfl rfl

/-- C6: every synchronize cycle (a valid clone, `gitUrl` configured, no
fetch/pull error) first fetches remote state and compares local against
remote; it pulls if and only if the local branch is behind by one or more
commits, performs no write when not behind, and logs the behind-count before
the pull. -/
theorem sync_cycle_pulls_iff_behind (cfg : Config) (env : SyncEnv) (u : String)
    (hg : cfg.gitUrl = some u) (hr : env.isRepo = true)
    (hf : env.fetchErr = false) (hp : env.pullErr = false) :
    ((checkForUpdates cfg env).1.take 2 = [.checkRepo, .fetchStep])
    ∧ (Ev.pullStep ∈ (checkForUpdates cfg env).1 ↔ 0 < env.behind)
    ∧ (env.behind = 0 → ∀ e ∈ (checkForUpdates cfg env).1, e.isWrite = false)
    ∧ (0 < env.behind →
        (checkForUpdates cfg env).1 =
          [.checkRepo, .fetchStep, .statusStep env.behind, .logBehind env.behind,
            .pullStep, .pullDone]
          ++ (if 0 < cfg.autoUpdateInterval then [.armTimer] else [])) := by
  obtain ⟨ir, fe, bh, pe⟩ := env
  simp only at hr hf hp
  subst hr hf hp
  have hn : cfg.gitUrl.isNone = false := by simp [hg]
  rcases Nat.eq_zero_or_pos bh with hb | hb
  · subst hb
    refine ⟨?_, ?_, ?_, ?_⟩ <;>
      by_cases hi : 0 < cfg.autoUpdateInterval <;>
        simp [checkForUpdates, syncBody, hn, hi, Ev.isWrite]
  · refine ⟨?_, ?_, ?_, ?_⟩ <;>
      by_cases hi : 0 < cfg.autoUpdateInterval <;>
        simp [checkForUpdates, syncBody, hn, hi, hb, Nat.pos_iff_ne_zero.mp hb]

/-- C6 witness: a concrete cycle three commits behind pulls, and its trace
reports the behind-count before the pull. -/
theorem sync_cycle_pulls_iff_behind_witness :
    ((checkForUpdates ⟨"d", some "u", "main", 5, none, "t"⟩ ⟨true, false, 3, false⟩).1.take 2
        = [.checkRepo, .fetchStep])
    ∧ (Ev.pullStep ∈ (checkForUpdates ⟨"d", some "u", "main", 5, none, "t"⟩
          ⟨true, false, 3, false⟩).1 ↔ 0 < (3 : Nat))
    ∧ ((3 : Nat) = 0 → ∀ e ∈ (checkForUpdates ⟨"d", some "u", "main", 5, none, "t"⟩
          ⟨true, false, 3, false⟩).1, e.isWrite = false)
    ∧ (0 < (3 : Nat) →
        (checkForUpdates ⟨"d", some "u", "main", 5, none, "t"⟩ ⟨true, false, 3, false⟩).1 =
          [.checkRepo, .fetchStep, .statusStep 3, .logBehind 3, .pullStep, .pullDone]
          ++ (if 0 < (5 : Nat) then [.armTimer] else [])) :=
  sync_cycle_pulls_iff_behind ⟨"d", some "u", "main", 5, none, "t"⟩
    ⟨true, false, 3, false⟩ "u" rfl rfl rfl rfl

/-- C7: in steady state (`gitUrl` configured, positive interval) a
synchronize cycle never propagates an exception to its caller; fetch/pull
errors are logged, and the timer is re-armed as the last step of every
cycle, successful or not. -/
theorem sync_errors_logged_and_timer_rearmed (cfg : Config) (env : SyncEnv)
    (u : String) (hg : cfg.gitUrl = some u) (hi : 0 < cfg.autoUpdateInterval) :
    (checkForUpdates cfg env).2 = false
    ∧ (Ev.errLogged ∈ (checkForUpdates cfg env).1 ↔
        env.isRepo = true
          ∧ (env.fetchErr = true ∨ (0 < env.behind ∧ env.pullErr = true)))
    ∧ (checkForUpdates cfg env).1.getLast? = some .armTimer := by
  obtain ⟨ir, fe, bh, pe⟩ := env
  have hn : cfg.gitUrl.isNone = false := by simp [hg]
  rcases Nat.eq_zero_or_pos bh with hb | hb
  · subst hb
    cases ir <;> cases fe <;> cases pe <;>
      simp [checkForUpdates, syncBody, hn, hi]
  · cases ir <;> cases fe <;> cases pe <;>
      simp [checkForUpdates, syncBody, hn, hi, hb, Nat.pos_iff_ne_zero.mp hb]

/-- C7 witness: a concrete cycle whose pull fails logs the error and still
re-arms the timer as its final step. -/
theorem sync_errors_logged_and_timer_rearmed_witness :
    (checkForUpdates ⟨"d", some "u", "main", 5, none, "t"⟩ ⟨true, false, 2, true⟩).2 = false
    ∧ (Ev.errLogged ∈ (checkForUpdates ⟨"d", some "u", "main", 5, none, "t"⟩
          ⟨true, false, 2, true⟩).1 ↔
        true = true ∧ (false = true ∨ (0 < (2 : Nat) ∧ true = true)))
    ∧ (checkForUpdates ⟨"d", some "u", "main", 5, none, "t"⟩
          ⟨true, false, 2, true⟩).1.getLast? = some .armTimer :=
  sync_errors_logged_and_timer_rearmed ⟨"d", some "u", "main", 5, none, "t"⟩
    ⟨true, false, 2, true⟩ "u" rfl (by decide)

/-- C2: evidence against the claim — with `autoUpdateInterval = 5` and a data
directory that is not a valid clone (and an initial clone that succeeds), the
runtime provisioning clones and connects the server without ever running a
synchronize cycle or arming the update timer: no immediate sync cycle and no
recurring schedule follow the fresh clone. -/
theorem fresh_clone_path_never_schedules_updates :
    run ⟨"data", some "https://github.com/acme/docs", "main", 5, none, "search_docs"⟩
        ⟨⟨false, false, 0, false⟩, false, true, true⟩ =
      (.serving, [.ensureDir, .tryClone, .cloneDone, .connect])
    ∧ Ev.armTimer ∉
        (run ⟨"data", some "https://github.com/acme/docs", "main", 5, none, "search_docs"⟩
          ⟨⟨false, false, 0, false⟩, false, true, true⟩).2
    ∧ Ev.fetchStep ∉
        (run ⟨"data", some "https://github.com/acme/docs", "main", 5, none, "search_docs"⟩
          ⟨⟨false, false, 0, false⟩, false, true, true⟩).2 := by
  refine ⟨rfl, by decide, by decide⟩

/-- C8: with the static-directory strategy selected, an error raised while
enumerating the source directory (the collaborator's behaviour when it is
missing or unreadable) makes the build exit non-zero, while a successful
zero-file enumeration completes the build without error and copies
nothing. -/
theorem static_copy_enum_error_fatal_empty_ok (cfg : Config) (env : BuildEnv)
    (d : String) (hg : cfg.gitUrl = none) (hd : cfg.includeDir = some d) :
    (∀ e, env.staticEnum = .error e → (build cfg env).1 = .exit1)
    ∧ (env.staticEnum = .ok [] →
        (build cfg env).1 = .ok ∧ ∀ p, Ev.copyFile p ∉ (build cfg env).2) := by
  constructor
  · intro e he
    simp [build, prepareDataDir, copyIncludedTrace, hg, hd, he]
  · intro he
    simp [build, prepareDataDir, copyIncludedTrace, hg, hd, he]

/-- C8 witness: a concrete failing enumeration is fatal, and a concrete empty
enumeration succeeds without copying. -/
theorem static_copy_enum_error_fatal_empty_ok_witness :
    (∀ e, (Except.error "ENOENT" : Except String (List SrcEntry)) = .error e →
      (build ⟨"data", none, "main", 0, some "/srv/docs", "t"⟩
        ⟨true, true, .error "ENOENT"⟩).1 = .exit1)
    ∧ ((Except.error "ENOENT" : Except String (List SrcEntry)) = .ok [] →
        (build ⟨"data", none, "main", 0, some "/srv/docs", "t"⟩
          ⟨true, true, .error "ENOENT"⟩).1 = .ok
        ∧ ∀ p, Ev.copyFile p ∉
            (build ⟨"data", none, "main", 0, some "/srv/docs", "t"⟩
              ⟨true, true, .error "ENOENT"⟩).2) :=
  static_copy_enum_error_fatal_empty_ok
    ⟨"data", none, "main", 0, some "/srv/docs", "t"⟩
    ⟨true, true, .error "ENOENT"⟩ "/srv/docs" rfl rfl

/-- C9: when the tool name matches and the query is present, a failure of the
search collaborator is caught inside the request's handler and returned as a
tool-level error result, and serving a subsequent request is unaffected. -/
theorem search_failure_returned_as_tool_error (cfg : Config)
    (f : SearchOptions → Except String String) (q e : String) (p : Option Nat)
    (r2 : ToolRequest) (hq : q ≠ "")
    (hf : f { path := cfg.dataDir, query := q, maxTokens := 10000 } = .error e) :
    handleCallTool cfg f ⟨cfg.toolName, q, p⟩ =
      .toolError ("Error executing " ++ cfg.toolName
        ++ ": Error executing docs search: " ++ e)
    ∧ serveAll cfg f [⟨cfg.toolName, q, p⟩, r2] =
        [.toolError ("Error executing " ++ cfg.toolName
          ++ ": Error executing docs search: " ++ e),
          handleCallTool cfg f r2] := by
  have h1 : handleCallTool cfg f ⟨cfg.toolName, q, p⟩ =
      .toolError ("Error executing " ++ cfg.toolName
        ++ ": Error executing docs search: " ++ e) := by
    simp [handleCallTool, executeDocsSearch, hf, hq, String.append_assoc]
    rw [← String.append_assoc ": " "Error executing docs search: " e]
    rfl
  exact ⟨h1, by simp [serveAll, h1]⟩

/-- C9 witness: a concrete collaborator failure comes back as a tool-level
error result and the next request is still served. -/
theorem search_failure_returned_as_tool_error_witness :
    handleCallTool ⟨"data", none, "main", 0, none, "search_docs"⟩
        (fun _ => .error "boom") ⟨"search_docs", "install", some 2⟩ =
      .toolError ("Error executing " ++ "search_docs"
        ++ ": Error executing docs search: " ++ "boom")
    ∧ serveAll ⟨"data", none, "main", 0, none, "search_docs"⟩
        (fun _ => .error "boom")
        [⟨"search_docs", "install", some 2⟩, ⟨"search_docs", "guide", none⟩] =
        [.toolError ("Error executing " ++ "search_docs"
          ++ ": Error executing docs search: " ++ "boom"),
          handleCallTool ⟨"data", none, "main", 0, none, "search_docs"⟩
            (fun _ => .error "boom") ⟨"search_docs", "guide", none⟩] :=
  search_failure_returned_as_tool_error
    ⟨"data", none, "main", 0, none, "search_docs"⟩ (fun _ => .error "boom")
    "install" "boom" (some 2) ⟨"search_docs", "guide", none⟩ (by decide) rfl

/-- C10: the handler's result does not depend on the `page` argument — two
requests differing only in `page` are handled identically — and the search
collaborator influences `executeDocsSearch` only through its value at exactly
`{path := dataDir, query := q, maxTokens := 10000}`. -/
theorem page_argument_has_no_effect (cfg : Config)
    (f g : SearchOptions → Except String String) (name q : String)
    (p p' : Option Nat) :
    handleCallTool cfg f ⟨name, q, p⟩ = handleCallTool cfg f ⟨name, q, p'⟩
    ∧ (g { path := cfg.dataDir, query := q, maxTokens := 10000 } =
          f { path := cfg.dataDir, query := q, maxTokens := 10000 } →
        executeDocsSearch cfg g q = executeDocsSearch cfg f q) := by
  refine ⟨rfl, fun h => ?_⟩
  simp [executeDocsSearch, h]

/-- C10 witness: concrete requests differing only in `page` get identical
results, and a collaborator agreeing at the one invoked options record yields
the identical search result. -/
theorem page_argument_has_no_effect_witness :
    handleCallTool ⟨"data", none, "main", 0, none, "search_docs"⟩
        (fun o : SearchOptions => (.ok o.query : Except String String))
        ⟨"search_docs", "install", some 1⟩ =
      handleCallTool ⟨"data", none, "main", 0, none, "search_docs"⟩
        (fun o : SearchOptions => (.ok o.query : Except String String))
        ⟨"search_docs", "install", some 7⟩
    ∧ ((fun o : SearchOptions => (.ok o.query : Except String String))
          { path := "data", query := "install", maxTokens := 10000 } =
        (fun o : SearchOptions => (.ok o.query : Except String String))
          { path := "data", query := "install", maxTokens := 10000 } →
        executeDocsSearch ⟨"data", none, "main", 0, none, "search_docs"⟩
          (fun o : SearchOptions => (.ok o.query : Except String String)) "install" =
        executeDocsSearch ⟨"data", none, "main", 0, none, "search_docs"⟩
          (fun o : SearchOptions => (.ok o.query : Except String String)) "install") :=
  page_argument_has_no_effect ⟨"data", none, "main", 0, none, "search_docs"⟩
    (fun o : SearchOptions => (.ok o.query : Except String String))
    (fun o : SearchOptions => (.ok o.query : Except String String))
    "search_docs" "install" (some 1) (some 7)

end DocsMcp
